import Mathlib

/-!
Shallow embedding of `students/DennisLee/lesson10/mailroom.py`.

Python floats are modelled as exact rationals (`ℚ`).  Python's `round(x, 2)`
rounds to the closest multiple of `1/100`, breaking ties towards the even
multiple (banker's rounding); we model it exactly on `ℚ` by `round2`.
Where the source feeds a decimal literal whose IEEE-754 double value differs
from the literal in a way that changes the result (e.g. `50.005`), the
concrete theorems use the exact rational value of that double.

Exceptions are modelled by the inductive `Err`; a Python method that both
mutates state and may raise is modelled as returning the mutated state
together with an `Option Err` (state survives the raise, as it does in
Python), and a constructor that may raise returns `Except Err _`.
-/

namespace Mailroom

/-- The kinds of exceptions the mailroom code can raise:
`ValueError`, `TypeError`, `KeyError` (a dict lookup miss), `IndexError`. -/
inductive Err where
  | valueError
  | typeError
  | keyError
  | indexError
deriving DecidableEq, Repr

/-- Round-half-even to an integer, as Python's `round(x)` behaves on exact
values: ties (fractional part exactly 1/2) go to the even integer, all other
values to the nearest integer. -/
def rhe (q : ℚ) : ℤ :=
  if q - q.floor = 1 / 2 then (if q.floor % 2 = 0 then q.floor else q.floor + 1)
  else (q + 1 / 2).floor

/-- Python's `round(x, 2)`: round to the closest multiple of 1/100 with ties
to even (banker's rounding), modelled exactly on `ℚ`. -/
def round2 (q : ℚ) : ℚ := (rhe (q * 100) : ℚ) / 100

/-- The `amount` argument of `Donor.add` / `Donor.__init__`: either a single
number or a (possibly nested) list/tuple of amounts, which `add` walks
recursively. -/
inductive Amt where
  | num (q : ℚ)
  | seq (l : List Amt)

/-- Python truthiness of an `amount` value (`if not amount`): a number is
falsy iff it is zero, a list/tuple is falsy iff it is empty. -/
def Amt.truthy : Amt → Bool
  | .num q => q != 0
  | .seq l => !l.isEmpty

/-- Python's `str.strip()` on the underlying character list: drop leading
and trailing whitespace. -/
def stripL (l : List Char) : List Char :=
  ((l.dropWhile Char.isWhitespace).reverse.dropWhile Char.isWhitespace).reverse

/-- Python's `str.strip()`: drop leading and trailing whitespace. -/
def strip (s : String) : String :=
  ⟨stripL s.data⟩

/-- A single donor: trimmed name and the ordered list of donation amounts
(`Donor.name`, `Donor.donations` in the source). -/
structure Donor where
  name : String
  donations : List ℚ
deriving DecidableEq, Repr

mutual

/-- `Donor.add`, acting on the `donations` list.  A scalar amount below
0.005 raises `ValueError` (the list is unchanged); otherwise the amount
rounded to 2 decimals is appended.  A list/tuple is added element by element
in order; a raise aborts the loop but the elements already appended stay
(Python mutates `self.donations` in place). -/
def addAmt : List ℚ → Amt → List ℚ × Option Err
  | ds, .num q => if q < 5 / 1000 then (ds, some .valueError) else (ds ++ [round2 q], none)
  | ds, .seq l => addSeq ds l

/-- The `for i in amount: self.add(i)` loop of `Donor.add`: add each element
in order, stopping at the first raise. -/
def addSeq : List ℚ → List Amt → List ℚ × Option Err
  | ds, [] => (ds, none)
  | ds, a :: rest =>
    match addAmt ds a with
    | (ds1, none) => addSeq ds1 rest
    | (ds1, some e) => (ds1, some e)

end

/-- `Donor.add` at the `Donor` level: returns the donor with the updated
`donations` list, plus the raised error if any. -/
def Donor.add (d : Donor) (amount : Amt) : Donor × Option Err :=
  let r := addAmt d.donations amount
  ({ d with donations := r.1 }, r.2)

/-- `Donor.__init__(name, amount)`: raises `ValueError` on a blank name or a
falsy amount, otherwise stores the trimmed name, starts from an empty
donations list and runs `add amount` (a raise inside `add` propagates and no
donor is produced). -/
def Donor.create (name : String) (amount : Amt) : Except Err Donor :=
  if name = "" ∨ strip name = "" then .error .valueError
  else if !amount.truthy then .error .valueError
  else
    match addAmt [] amount with
    | (ds, none) => .ok { name := strip name, donations := ds }
    | (_, some e) => .error e

/-- `Donor.total`: the sum of the donations, or 0.00 for an empty list. -/
def Donor.total (d : Donor) : ℚ :=
  if d.donations ≠ [] then d.donations.sum else 0

/-- `Donor.gifts`: the number of donations. -/
def Donor.gifts (d : Donor) : ℕ := d.donations.length

/-- `Donor.average`: `1.0 * total / gifts`, or 0.00 when there are no
gifts. -/
def Donor.average (d : Donor) : ℚ :=
  if d.gifts ≠ 0 then 1 * d.total / (d.gifts : ℚ) else 0

/-- The variable data that `Donor.form_letter` fills into its fixed template
`text.format(self.name, self.donations[index], extra)`: the donor's name,
the amount of the donation being thanked for, and — when the donor has more
than one gift — the parenthetical's total amount and gift count.  The
surrounding template text is a string constant and is elided. -/
structure Letter where
  toName : String
  amount : ℚ
  extra : Option (ℚ × ℕ)
deriving DecidableEq, Repr

/-- Python list indexing `l[i]` for an index already known to lie in
`range(-len(l), len(l))`: a negative index counts from the end. -/
def pyGet (l : List ℚ) (i : ℤ) : ℚ :=
  l.getD (if i < 0 then i + (l.length : ℤ) else i).toNat 0

/-- The body of `Donor.form_letter(index)`: raises `IndexError` when `index`
is outside `range(-gifts, gifts)`, otherwise produces the letter for
`donations[index]`, with the parenthetical (total, gifts) exactly when the
donor has more than one gift.  (In the source the function is additionally
wrapped in `@property`; see the theorems about claim C7.) -/
def Donor.form_letter (d : Donor) (index : ℤ) : Except Err Letter :=
  if ¬(-(d.gifts : ℤ) ≤ index ∧ index < (d.gifts : ℤ)) then .error .indexError
  else
    .ok { toName := d.name
          amount := pyGet d.donations index
          extra := if d.gifts > 1 then some (d.total, d.gifts) else none }

/-- `DonorCollection`: the insertion-ordered `donors` dict (modelled as an
association list of trimmed name ↦ `Donor`) plus the `factor` / `floor` /
`ceiling` attributes set in `__init__` and overwritten by `projector`. -/
structure DonorCollection where
  donors : List (String × Donor)
  factor : ℚ
  floor : ℚ
  ceiling : ℚ
deriving DecidableEq, Repr

/-- `DonorCollection.__init__`: empty dict, `factor = 1.0`, `floor = 0.0`,
`ceiling = 1.0e12`. -/
def DonorCollection.init : DonorCollection :=
  { donors := [], factor := 1, floor := 0, ceiling := 10 ^ 12 }

/-- A key passed to `DonorCollection.__getitem__`: a string, or a value of
any other type (whose content is irrelevant, only its non-string-ness). -/
inductive Key where
  | str (s : String)
  | nonStr
deriving DecidableEq, Repr

/-- `DonorCollection.__getitem__(key)`: `TypeError` for a non-string key;
otherwise `self.donors[key.strip()]`, whose miss raises `KeyError` (the
`except IndexError` handler in the source never matches a dict miss, so the
`KeyError` propagates). -/
def DonorCollection.getitem (c : DonorCollection) (key : Key) : Except Err Donor :=
  match key with
  | .nonStr => .error .typeError
  | .str s =>
    match c.donors.lookup (strip s) with
    | some d => .ok d
    | none => .error .keyError

/-- `DonorCollection.add(name, amount)`: `ValueError` on a blank name;
delegate to the existing donor's `add` when the trimmed name is present
(the donor keeps any amounts appended before a raise), otherwise construct
`Donor(clean_name, amount)` and insert it (on a constructor raise the dict
is unchanged). -/
def DonorCollection.add (c : DonorCollection) (name : String) (amount : Amt) :
    DonorCollection × Option Err :=
  if name = "" ∨ strip name = "" then (c, some .valueError)
  else
    let clean := strip name
    match c.donors.lookup clean with
    | some d =>
      let r := d.add amount
      ({ c with donors := c.donors.map fun p => if p.1 = clean then (p.1, r.1) else p }, r.2)
    | none =>
      match Donor.create clean amount with
      | .ok d => ({ c with donors := c.donors ++ [(clean, d)] }, none)
      | .error e => (c, some e)

/-- `DonorCollection.filter_mapper(x)` on a triple (name, new donor, old
donation list): keep only the donations `y` with
`self.floor <= y <= self.ceiling`. -/
def DonorCollection.filter_mapper (c : DonorCollection) (x : String × Donor × List ℚ) :
    String × Donor × List ℚ :=
  (x.1, x.2.1, x.2.2.filter fun y => decide (c.floor ≤ y ∧ y ≤ c.ceiling))

/-- `DonorCollection.multiply_mapper(x)`: overwrite the new donor's
donations with the filtered list, each amount multiplied by `self.factor`
and rounded to 2 decimals. -/
def DonorCollection.multiply_mapper (c : DonorCollection) (x : String × Donor × List ℚ) :
    String × Donor :=
  (x.1, { x.2.1 with donations := x.2.2.map fun y => round2 (y * c.factor) })

/-- The `donor_map` built inside `projector`: for each entry of the dict, in
order, the triple `(name, Donor(name, 0.01), old donations)`.  The `Donor`
constructor call can raise (on a blank key), and the first raise wins, as
when Python forces the `map` with `list(...)`. -/
def donorTriples : List (String × Donor) → Except Err (List (String × Donor × List ℚ))
  | [] => .ok []
  | p :: rest =>
    match Donor.create p.1 (Amt.num (1 / 100)), donorTriples rest with
    | .error e, _ => .error e
    | .ok _, .error e => .error e
    | .ok d, .ok t => .ok ((p.1, d, p.2.donations) :: t)

/-- `DonorCollection.projector(factor, min_donation, max_donation)`.  It
first assigns `self.factor` and only then validates it (`ValueError` when
`factor <= 0` — `self.factor` keeps the invalid value); then it assigns
`self.floor` / `self.ceiling`, builds the `donor_map` triples, filters,
multiplies and returns the dict of fresh donors.  The mutated `self` is
returned alongside the result. -/
def DonorCollection.projector (c : DonorCollection) (factor mn mx : ℚ) :
    DonorCollection × Except Err (List (String × Donor)) :=
  let c1 : DonorCollection := { c with factor := factor }
  if c1.factor ≤ 0 then (c1, .error .valueError)
  else
    let c2 : DonorCollection := { c1 with floor := mn, ceiling := mx }
    match donorTriples c.donors with
    | .error e => (c2, .error e)
    | .ok donor_map =>
      (c2, .ok ((donor_map.map c2.filter_mapper).map c2.multiply_mapper))

/-- `DonorCollection.challenge(factor, min_donation, max_donation)`: a fresh
`DonorCollection` whose `donors` dict is the result of `projector`; the
(mutated) original is returned alongside. -/
def DonorCollection.challenge (c : DonorCollection) (factor mn mx : ℚ) :
    DonorCollection × Except Err DonorCollection :=
  match c.projector factor mn mx with
  | (c1, .ok m) => (c1, .ok { DonorCollection.init with donors := m })
  | (c1, .error e) => (c1, .error e)

/-- Calling `Donor.add` once per element, individually and in order, the
next call acting on the donor left by the previous one, stopping at the
first raise.  This is the right-hand side of the equivalence claimed for
`Donor.add` on sequences. -/
def Donor.addEachOne (d : Donor) : List Amt → Donor × Option Err
  | [] => (d, none)
  | a :: rest =>
    match d.add a with
    | (d1, none) => d1.addEachOne rest
    | (d1, some e) => (d1, some e)

/-- The donation-amount invariant of the spec, as amended: every stored
amount is nonnegative and is a fixed point of cent rounding. -/
def centOk (d : Donor) : Prop :=
  ∀ q ∈ d.donations, 0 ≤ q ∧ round2 q = q

/-- The collection-wide donation invariant: every donor in the dict
satisfies `centOk`. -/
def collOk (c : DonorCollection) : Prop :=
  ∀ p ∈ c.donors, centOk p.2

/-- The donation-amount invariant exactly as the spec states it: every
stored amount is at least 0.01 and is a fixed point of cent rounding. -/
def centFloorOk (d : Donor) : Prop :=
  ∀ q ∈ d.donations, 1 / 100 ≤ q ∧ round2 q = q

/-! ### Arithmetic facts about the rounding function -/

theorem rat_floor_eq (q : ℚ) : q.floor = ⌊q⌋ := by
  rw [Rat.floor_def, Rat.floor_def']

theorem rhe_eq_floor_form (q : ℚ) :
    rhe q = if q - ⌊q⌋ = 1 / 2 then (if ⌊q⌋ % 2 = 0 then ⌊q⌋ else ⌊q⌋ + 1)
      else ⌊q + 1 / 2⌋ := by
  rw [rhe, rat_floor_eq, rat_floor_eq]

theorem rhe_of_lt_half (q : ℚ) (n : ℤ) (h1 : (n : ℚ) ≤ q) (h2 : q < n + 1 / 2) :
    rhe q = n := by
  have hf : ⌊q⌋ = n := by
    apply Int.floor_eq_iff.mpr
    constructor
    · exact h1
    · calc q < (n : ℚ) + 1 / 2 := h2
        _ ≤ n + 1 := by norm_num
  have hf2 : ⌊q + 1 / 2⌋ = n := by
    apply Int.floor_eq_iff.mpr
    constructor
    · linarith
    · linarith
  rw [rhe_eq_floor_form, hf, hf2, if_neg]
  intro h
  rw [sub_eq_iff_eq_add] at h
  rw [h] at h2
  linarith

theorem rhe_of_gt_half (q : ℚ) (n : ℤ) (h1 : (n : ℚ) + 1 / 2 < q) (h2 : q < n + 1) :
    rhe q = n + 1 := by
  have hf : ⌊q⌋ = n := by
    apply Int.floor_eq_iff.mpr
    refine ⟨by linarith, h2⟩
  have hf2 : ⌊q + 1 / 2⌋ = n + 1 := by
    apply Int.floor_eq_iff.mpr
    constructor
    · push_cast
      linarith
    · push_cast
      linarith
  rw [rhe_eq_floor_form, hf, hf2, if_neg]
  intro h
  rw [sub_eq_iff_eq_add] at h
  rw [h] at h1
  linarith

theorem rhe_tie (q : ℚ) (n : ℤ) (h : q = (n : ℚ) + 1 / 2) :
    rhe q = if n % 2 = 0 then n else n + 1 := by
  have hf : ⌊q⌋ = n := by
    apply Int.floor_eq_iff.mpr
    constructor
    · linarith
    · linarith
  rw [rhe_eq_floor_form, hf, if_pos]
  rw [h]
  ring

theorem rhe_intCast (n : ℤ) : rhe (n : ℚ) = n :=
  rhe_of_lt_half _ n (le_refl _) (by norm_num)

theorem rhe_nonneg (q : ℚ) (h : 0 ≤ q) : 0 ≤ rhe q := by
  rw [rhe_eq_floor_form]
  have hq : (0 : ℤ) ≤ ⌊q⌋ ∨ q - ⌊q⌋ ≠ 1 / 2 := by
    by_cases hfl : (0 : ℤ) ≤ ⌊q⌋
    · exact Or.inl hfl
    · right
      intro hcontra
      have h1 : ⌊q⌋ ≤ -1 := by omega
      have h2 : (⌊q⌋ : ℚ) ≤ -1 := by exact_mod_cast h1
      have h3 : q = (⌊q⌋ : ℚ) + 1 / 2 := by linarith [sub_eq_iff_eq_add.mp hcontra]
      linarith
  by_cases htie : q - ⌊q⌋ = 1 / 2
  · rcases hq with hfl | hne
    · rw [if_pos htie]
      split <;> omega
    · exact absurd htie hne
  · rw [if_neg htie]
    have : (0 : ℤ) ≤ ⌊q + 1 / 2⌋ := Int.floor_nonneg.mpr (by linarith)
    exact this

/-- Any exact multiple of one cent is a fixed point of `round2`. -/
theorem round2_cent (k : ℤ) : round2 ((k : ℚ) / 100) = (k : ℚ) / 100 := by
  rw [round2]
  have h : (k : ℚ) / 100 * 100 = (k : ℚ) := by
    field_simp
  rw [h, rhe_intCast]

/-- `round2` is idempotent. -/
theorem round2_round2 (q : ℚ) : round2 (round2 q) = round2 q := by
  rw [round2]
  exact round2_cent _

/-- `round2` sends nonnegative amounts to nonnegative amounts. -/
theorem round2_nonneg (q : ℚ) (h : 0 ≤ q) : 0 ≤ round2 q := by
  rw [round2]
  have : (0 : ℤ) ≤ rhe (q * 100) := rhe_nonneg _ (by positivity)
  positivity

theorem round2_one_cent : round2 (1 / 100 : ℚ) = 1 / 100 := by
  have h := round2_cent 1
  norm_num at h
  exact h

/-! ### Characterisations of the operations -/

theorem strip_empty : strip "" = "" := rfl

/-- `Donor.__init__` on a scalar amount that passes the 0.005 check. -/
theorem Donor.create_num (name : String) (q : ℚ) (h : strip name ≠ "")
    (hq : ¬ q < 5 / 1000) :
    Donor.create name (.num q) = .ok ⟨strip name, [round2 q]⟩ := by
  have hname : ¬(name = "" ∨ strip name = "") := by
    rintro (rfl | he)
    · exact h strip_empty
    · exact h he
  have hq0 : (Amt.num q).truthy = true := by
    simp only [Amt.truthy, bne_iff_ne, ne_eq]
    intro hq'
    rw [hq'] at hq
    norm_num at hq
  rw [Donor.create, if_neg hname, hq0]
  simp only [Bool.not_true, Bool.false_eq_true, if_false, addAmt, if_neg hq, List.nil_append]

theorem donorTriples_ok (l : List (String × Donor)) (h : ∀ p ∈ l, strip p.1 ≠ "") :
    donorTriples l = .ok (l.map fun p => (p.1, ⟨strip p.1, [1 / 100]⟩, p.2.donations)) := by
  induction l with
  | nil => rfl
  | cons p t ih =>
    rw [donorTriples, Donor.create_num p.1 (1 / 100) (h p (List.mem_cons_self p t)) (by norm_num),
      ih fun x hx => h x (List.mem_cons_of_mem p hx), round2_one_cent]
    rfl

/-- `projector` on a non-positive factor: `self.factor` is overwritten with
the invalid value, `self.floor` / `self.ceiling` are untouched, and
`ValueError` is raised. -/
theorem DonorCollection.projector_nonpos (c : DonorCollection) (f mn mx : ℚ) (hf : f ≤ 0) :
    c.projector f mn mx = ({ c with factor := f }, .error .valueError) := by
  rw [DonorCollection.projector]
  simp only [if_pos hf]

/-- `projector` on a positive factor and well-formed keys: all three
attributes are overwritten and the fresh filtered/scaled dict is returned. -/
theorem DonorCollection.projector_pos (c : DonorCollection) (f mn mx : ℚ) (hf : 0 < f)
    (h : ∀ p ∈ c.donors, strip p.1 ≠ "") :
    c.projector f mn mx = ({ c with factor := f, floor := mn, ceiling := mx },
      .ok (c.donors.map fun p => (p.1, ⟨strip p.1,
        (p.2.donations.filter fun y => decide (mn ≤ y ∧ y ≤ mx)).map
          fun y => round2 (y * f)⟩))) := by
  rw [DonorCollection.projector]
  simp only [not_le.mpr hf, if_false, donorTriples_ok c.donors h, List.map_map]
  rfl

/-- `challenge` on a positive factor and well-formed keys. -/
theorem DonorCollection.challenge_pos (c : DonorCollection) (f mn mx : ℚ) (hf : 0 < f)
    (h : ∀ p ∈ c.donors, strip p.1 ≠ "") :
    c.challenge f mn mx = ({ c with factor := f, floor := mn, ceiling := mx },
      .ok { DonorCollection.init with donors := c.donors.map fun p => (p.1, ⟨strip p.1,
        (p.2.donations.filter fun y => decide (mn ≤ y ∧ y ≤ mx)).map
          fun y => round2 (y * f)⟩) }) := by
  rw [DonorCollection.challenge, DonorCollection.projector_pos c f mn mx hf h]

/-- `challenge` on a non-positive factor. -/
theorem DonorCollection.challenge_nonpos (c : DonorCollection) (f mn mx : ℚ) (hf : f ≤ 0) :
    c.challenge f mn mx = ({ c with factor := f }, .error .valueError) := by
  rw [DonorCollection.challenge, DonorCollection.projector_nonpos c f mn mx hf]

/-! ### Facts about `strip` and `addAmt` -/

theorem dropWhile_head_not {α : Type} (p : α → Bool) (l : List α) (c : α) (t : List α)
    (h : l.dropWhile p = c :: t) : p c = false := by
  induction l with
  | nil => simp [List.dropWhile] at h
  | cons a l2 ih =>
    by_cases hpa : p a
    · rw [List.dropWhile_cons_of_pos hpa] at h
      exact ih h
    · rw [List.dropWhile_cons_of_neg hpa] at h
      cases h
      simpa using hpa

theorem dropWhile_idem {α : Type} (p : α → Bool) (l : List α) :
    (l.dropWhile p).dropWhile p = l.dropWhile p := by
  cases h : l.dropWhile p with
  | nil => rfl
  | cons c t =>
    rw [List.dropWhile_cons_of_neg]
    simp [dropWhile_head_not p l c t h]

theorem stripL_idem (l : List Char) : stripL (stripL l) = stripL l := by
  simp only [stripL]
  have hyx : ((l.dropWhile Char.isWhitespace).reverse.dropWhile Char.isWhitespace).reverse
      <+: l.dropWhile Char.isWhitespace := by
    have h1 := List.dropWhile_suffix (l := (l.dropWhile Char.isWhitespace).reverse)
      Char.isWhitespace
    have h2 := List.reverse_prefix.mpr h1
    rwa [List.reverse_reverse] at h2
  have hstep : ((l.dropWhile Char.isWhitespace).reverse.dropWhile Char.isWhitespace).reverse.dropWhile
      Char.isWhitespace
      = ((l.dropWhile Char.isWhitespace).reverse.dropWhile Char.isWhitespace).reverse := by
    obtain ⟨r, hr⟩ := hyx
    cases hy : ((l.dropWhile Char.isWhitespace).reverse.dropWhile Char.isWhitespace).reverse with
    | nil => rfl
    | cons c t =>
      rw [hy] at hr
      have hc : Char.isWhitespace c = false :=
        dropWhile_head_not Char.isWhitespace l c (t ++ r) (by simpa using hr.symm)
      rw [List.dropWhile_cons_of_neg (by simp [hc])]
  rw [hstep, List.reverse_reverse, dropWhile_idem]

theorem strip_idem (s : String) : strip (strip s) = strip s :=
  congrArg String.mk (stripL_idem s.data)

mutual

theorem addAmt_mem : ∀ (ds : List ℚ) (a : Amt) (q : ℚ), q ∈ (addAmt ds a).1 →
    q ∈ ds ∨ ∃ x : ℚ, ¬ x < 5 / 1000 ∧ q = round2 x
  | ds, .num x, q, hq => by
    by_cases hx : x < 5 / 1000
    · rw [addAmt, if_pos hx] at hq
      exact Or.inl hq
    · rw [addAmt, if_neg hx] at hq
      rcases List.mem_append.mp hq with h1 | h2
      · exact Or.inl h1
      · exact Or.inr ⟨x, hx, by simpa using h2⟩
  | ds, .seq l, q, hq => addSeq_mem ds l q (by rwa [addAmt] at hq)

theorem addSeq_mem : ∀ (ds : List ℚ) (l : List Amt) (q : ℚ), q ∈ (addSeq ds l).1 →
    q ∈ ds ∨ ∃ x : ℚ, ¬ x < 5 / 1000 ∧ q = round2 x
  | ds, [], q, hq => Or.inl (by rwa [addSeq] at hq)
  | ds, a :: rest, q, hq => by
    rw [addSeq] at hq
    rcases h : addAmt ds a with ⟨ds1, e⟩
    rw [h] at hq
    cases e with
    | none =>
      rcases addSeq_mem ds1 rest q hq with h1 | h2
      · rcases addAmt_mem ds a q (by rw [h]; exact h1) with h3 | h4
        · exact Or.inl h3
        · exact Or.inr h4
      · exact Or.inr h2
    | some e1 =>
      exact addAmt_mem ds a q (by rw [h]; exact hq)

end

/-- Every amount present after a `Donor.add` call was either already there
or is the cent rounding of an accepted (`>= 0.005`) input. -/
theorem addAmt_centOk (ds : List ℚ) (a : Amt) (h : ∀ q ∈ ds, 0 ≤ q ∧ round2 q = q) :
    ∀ q ∈ (addAmt ds a).1, 0 ≤ q ∧ round2 q = q := by
  intro q hq
  rcases addAmt_mem ds a q hq with h1 | ⟨x, hx, rfl⟩
  · exact h q h1
  · have hx0 : (0 : ℚ) ≤ x := by
      have := not_lt.mp hx
      linarith
    exact ⟨round2_nonneg x hx0, round2_round2 x⟩

theorem round2_intCast (k : ℤ) : round2 (k : ℚ) = k := by
  have h2 : ((100 * k : ℤ) : ℚ) / 100 = (k : ℚ) := by
    push_cast
    ring
  have h := round2_cent (100 * k)
  rw [h2] at h
  exact h

theorem round2_milli : round2 (1 / 1000 : ℚ) = 0 := by
  rw [round2]
  have h : rhe ((1 / 1000 : ℚ) * 100) = 0 := by
    have h2 := rhe_of_lt_half ((1 / 1000 : ℚ) * 100) 0 (by norm_num) (by norm_num)
    simpa using h2
  rw [h]
  norm_num

/-- `7037578105208177 / 140737488355328` is the exact value of the IEEE-754
double `50.005` (Python `(50.005).as_integer_ratio()`); rounding it to cents
gives `50.01`, because the double is slightly above the decimal `50.005`. -/
theorem round2_double_50005 :
    round2 (7037578105208177 / 140737488355328 : ℚ) = 5001 / 100 := by
  rw [round2]
  have h : rhe ((7037578105208177 / 140737488355328 : ℚ) * 100) = 5001 := by
    have h2 := rhe_of_gt_half ((7037578105208177 / 140737488355328 : ℚ) * 100) 5000
      (by norm_num) (by norm_num)
    simpa using h2
  rw [h]
  norm_num

theorem lookup_mem {α β : Type} [BEq α] {l : List (α × β)} {k : α} {v : β}
    (h : l.lookup k = some v) : ∃ k2, (k2, v) ∈ l := by
  induction l with
  | nil => simp at h
  | cons p t ih =>
    rcases p with ⟨k1, v1⟩
    rw [List.lookup_cons] at h
    cases hk : k == k1
    · rw [hk] at h
      obtain ⟨k2, hk2⟩ := ih h
      exact ⟨k2, List.mem_cons_of_mem _ hk2⟩
    · rw [hk] at h
      cases h
      exact ⟨k1, List.mem_cons_self _ _⟩

/-- Whatever `donorTriples` returns, each triple carries the donation list
of one of the original donors. -/
theorem donorTriples_sound :
    ∀ (l : List (String × Donor)) (t : List (String × Donor × List ℚ)),
      donorTriples l = .ok t → ∀ x ∈ t, ∃ p ∈ l, x.2.2 = p.2.donations := by
  intro l
  induction l with
  | nil =>
    intro t h x hx
    rw [donorTriples] at h
    cases h
    simp at hx
  | cons p rest ih =>
    intro t h x hx
    rw [donorTriples] at h
    rcases h1 : Donor.create p.1 (Amt.num (1 / 100)) with e | d
    · rw [h1] at h
      exact absurd h (by simp)
    · rw [h1] at h
      rcases h2 : donorTriples rest with e2 | t2
      · rw [h2] at h
        exact absurd h (by simp)
      · rw [h2] at h
        cases h
        rcases List.mem_cons.mp hx with rfl | hx2
        · exact ⟨p, List.mem_cons_self _ _, rfl⟩
        · obtain ⟨p2, hp2, he⟩ := ih t2 h2 x hx2
          exact ⟨p2, List.mem_cons_of_mem p hp2, he⟩

/-- The `donors` dict of the collection `challenge` was called on is never
written to, whatever the arguments. -/
theorem challenge_fst_donors (c : DonorCollection) (f mn mx : ℚ) :
    (c.challenge f mn mx).1.donors = c.donors := by
  unfold DonorCollection.challenge DonorCollection.projector
  by_cases hf : f ≤ 0
  · simp only [if_pos hf]
  · simp only [if_neg hf]
    rcases h : donorTriples c.donors with e | t <;> simp [h]

/-! ### The claims -/

/-- C5: for every `Donor`, `total` is the sum of the donations list (0.00
when empty), `gifts` is its length, and `average` is `total / gifts` in
exact (float-modelling) division, or 0.00 when the list is empty. -/
theorem donor_statistics (d : Donor) :
    d.total = d.donations.sum ∧
    d.gifts = d.donations.length ∧
    (d.donations ≠ [] → d.average = d.total / (d.gifts : ℚ)) ∧
    (d.donations = [] → d.average = 0) := by
  refine ⟨?_, rfl, ?_, ?_⟩
  · rw [Donor.total]
    by_cases h : d.donations = []
    · rw [if_neg (by simp [h]), h]
      rfl
    · rw [if_pos h]
  · intro h
    rw [Donor.average, if_pos (by simpa [Donor.gifts] using h), one_mul]
  · intro h
    rw [Donor.average, if_neg (by simp [Donor.gifts, h])]

/-- Witness for C5 at a concrete two-gift donor. -/
theorem donor_statistics_witness :
    (Donor.mk "X" [10, 20]).donations ≠ [] ∧
    (Donor.mk "X" [10, 20]).average
      = (Donor.mk "X" [10, 20]).total / ((Donor.mk "X" [10, 20]).gifts : ℚ) :=
  ⟨by simp, (donor_statistics (Donor.mk "X" [10, 20])).2.2.1 (by simp)⟩

/-- C6: adding a whole (possibly nested) sequence with one `Donor.add` call
gives the same resulting donor and the same error behaviour as adding its
elements one call at a time, in order. -/
theorem add_seq_eq_individual_adds (d : Donor) (l : List Amt) :
    d.add (.seq l) = d.addEachOne l := by
  induction l generalizing d with
  | nil => rfl
  | cons a rest ih =>
    rcases h : addAmt d.donations a with ⟨ds1, e⟩
    cases e with
    | none =>
      have lhs : d.add (.seq (a :: rest)) = (Donor.mk d.name ds1).add (.seq rest) := by
        simp only [Donor.add, addAmt, addSeq, h]
      rw [lhs, ih]
      simp only [Donor.addEachOne, Donor.add, h]
    | some e1 =>
      simp only [Donor.addEachOne, Donor.add, addAmt, addSeq, h]

/-- C9: `Donor.add` on a sequence is not atomic — when an element below the
0.005 threshold follows valid elements, the call raises `ValueError` but
the valid elements before it have already been appended and stay. -/
theorem add_seq_not_atomic (d : Donor) (valid : List ℚ) (bad : ℚ) (rest : List Amt)
    (hv : ∀ v ∈ valid, ¬ v < 5 / 1000) (hb : bad < 5 / 1000) :
    d.add (.seq (valid.map Amt.num ++ Amt.num bad :: rest)) =
      ({ d with donations := d.donations ++ valid.map round2 }, some .valueError) := by
  have key : ∀ (vs : List ℚ) (ds : List ℚ), (∀ v ∈ vs, ¬ v < 5 / 1000) →
      addSeq ds (vs.map Amt.num ++ Amt.num bad :: rest)
        = (ds ++ vs.map round2, some .valueError) := by
    intro vs
    induction vs with
    | nil =>
      intro ds _
      simp only [List.map_nil, List.nil_append, addSeq, addAmt, if_pos hb, List.append_nil]
    | cons v vt ih =>
      intro ds hvs
      simp only [List.map_cons, List.cons_append, addSeq, addAmt,
        if_neg (hvs v (List.mem_cons_self _ _)), List.append_eq]
      rw [ih (ds ++ [round2 v]) fun x hx => hvs x (List.mem_cons_of_mem _ hx),
        List.append_assoc]
      rfl
  rw [Donor.add]
  simp only [addAmt, key valid d.donations hv]

/-- Witness for C9: adding `[1, 2, 0.001]` to a fresh donor appends 1 and 2,
then raises, leaving both appended. -/
theorem add_seq_not_atomic_witness :
    (¬ (1 : ℚ) < 5 / 1000) ∧ (¬ (2 : ℚ) < 5 / 1000) ∧ ((1 / 1000 : ℚ) < 5 / 1000) ∧
    (Donor.mk "A" []).add (.seq [Amt.num 1, Amt.num 2, Amt.num (1 / 1000)]) =
      (Donor.mk "A" [1, 2], some .valueError) := by
  refine ⟨by norm_num, by norm_num, by norm_num, ?_⟩
  have h := add_seq_not_atomic (Donor.mk "A" []) [1, 2] (1 / 1000) []
    (by norm_num) (by norm_num)
  simp only [List.map_cons, List.map_nil, List.cons_append, List.nil_append] at h
  rw [h]
  have h1 : round2 (1 : ℚ) = 1 := by
    have := round2_intCast 1
    exact_mod_cast this
  have h2 : round2 (2 : ℚ) = 2 := by
    have := round2_intCast 2
    exact_mod_cast this
  simp [h1, h2]

/-- C10: `challenge` overwrites the original collection's `factor`, `floor`
and `ceiling`; with a non-positive factor the `ValueError` comes only after
`self.factor` has been set to the invalid value (`floor`/`ceiling` keep
their old values in that case). -/
theorem challenge_mutates_factor_before_validation (c : DonorCollection) (f mn mx : ℚ) :
    (f ≤ 0 → c.challenge f mn mx = ({ c with factor := f }, .error .valueError)) ∧
    (0 < f → (c.challenge f mn mx).1
      = { c with factor := f, floor := mn, ceiling := mx }) := by
  constructor
  · intro hf
    exact DonorCollection.challenge_nonpos c f mn mx hf
  · intro hf
    unfold DonorCollection.challenge DonorCollection.projector
    simp only [if_neg (not_le.mpr hf)]
    rcases h : donorTriples c.donors with e | t <;> simp [h]

/-- Witness for C10 at a concrete collection, one failing and one
succeeding factor. -/
theorem challenge_mutates_factor_before_validation_witness :
    ((-1 : ℚ) ≤ 0) ∧ ((0 : ℚ) < 2) ∧
    DonorCollection.init.challenge (-1) 3 4
      = ({ DonorCollection.init with factor := -1 }, .error .valueError) ∧
    (DonorCollection.init.challenge 2 3 4).1
      = { DonorCollection.init with factor := 2, floor := 3, ceiling := 4 } :=
  ⟨by norm_num, by norm_num,
    (challenge_mutates_factor_before_validation DonorCollection.init (-1) 3 4).1
      (by norm_num),
    (challenge_mutates_factor_before_validation DonorCollection.init 2 3 4).2
      (by norm_num)⟩

/-- C7 (behaviour of the `form_letter` body): on a donor with 3 gifts,
index -1 yields the letter for the 3rd (most recent) gift with the
multi-gift parenthetical (total 60 over 3 gifts), while the out-of-range
indices 5 and -4 raise the `IndexError`-kind error; 2 (the last valid
index) succeeds and 3 (the first invalid one) raises.  The claim fails on
the shipped code only because `form_letter` is wrapped in `@property`,
making the documented `index` argument unpassable. -/
theorem form_letter_body_index_behaviour :
    Donor.form_letter (Donor.mk "X" [10, 20, 30]) (-1)
      = .ok (Letter.mk "X" 30 (some (60, 3))) ∧
    Donor.form_letter (Donor.mk "X" [10, 20, 30]) 5 = .error .indexError ∧
    Donor.form_letter (Donor.mk "X" [10, 20, 30]) (-4) = .error .indexError ∧
    Donor.form_letter (Donor.mk "X" [10, 20, 30]) 2
      = .ok (Letter.mk "X" 30 (some (60, 3))) ∧
    Donor.form_letter (Donor.mk "X" [10, 20, 30]) 3 = .error .indexError := by
  refine ⟨?_, ?_, ?_, ?_, ?_⟩
  · norm_num [Donor.form_letter, Donor.gifts, Donor.total, pyGet, List.getD]
    exact ⟨rfl, by simp⟩
  · norm_num [Donor.form_letter, Donor.gifts]
  · norm_num [Donor.form_letter, Donor.gifts]
  · norm_num [Donor.form_letter, Donor.gifts, Donor.total, pyGet, List.getD]
    exact ⟨rfl, by simp⟩
  · norm_num [Donor.form_letter, Donor.gifts]

/-- C8: `__getitem__` rejects a non-string key with `TypeError`; a string
key is trimmed before the dict lookup, so a name with surrounding
whitespace resolves exactly like its trimmed form; a present trimmed name
returns its `Donor` and an absent one gives the not-found (`KeyError`)
error. -/
theorem getitem_spec (c : DonorCollection) :
    c.getitem Key.nonStr = .error .typeError ∧
    (∀ s, c.getitem (.str s) = c.getitem (.str (strip s))) ∧
    (∀ s d, c.donors.lookup (strip s) = some d → c.getitem (.str s) = .ok d) ∧
    (∀ s, c.donors.lookup (strip s) = none →
      c.getitem (.str s) = .error .keyError) := by
  refine ⟨rfl, ?_, ?_, ?_⟩
  · intro s
    simp only [DonorCollection.getitem, strip_idem]
  · intro s d h
    simp only [DonorCollection.getitem, h]
  · intro s h
    simp only [DonorCollection.getitem, h]

/-- Witness for C8 on a one-donor collection: `"  Alice "` resolves the
donor stored under `"Alice"`, and `"Bob"` raises the not-found error. -/
theorem getitem_spec_witness :
    ((DonorCollection.mk [("Alice", Donor.mk "Alice" [100])] 1 0 (10 ^ 12)).donors.lookup
      (strip "  Alice ") = some (Donor.mk "Alice" [100])) ∧
    (DonorCollection.mk [("Alice", Donor.mk "Alice" [100])] 1 0 (10 ^ 12)).getitem
      (.str "  Alice ") = .ok (Donor.mk "Alice" [100]) ∧
    ((DonorCollection.mk [("Alice", Donor.mk "Alice" [100])] 1 0 (10 ^ 12)).donors.lookup
      (strip "Bob") = none) ∧
    (DonorCollection.mk [("Alice", Donor.mk "Alice" [100])] 1 0 (10 ^ 12)).getitem
      (.str "Bob") = .error .keyError := by
  have h1 : strip "  Alice " = "Alice" := by decide
  have h2 : strip "Bob" = "Bob" := by decide
  have hlook1 : ([("Alice", Donor.mk "Alice" [100])].lookup (strip "  Alice "))
      = some (Donor.mk "Alice" [100]) := by
    rw [h1]
    simp [List.lookup]
  have hlook2 : ([("Alice", Donor.mk "Alice" [100])].lookup (strip "Bob")) = none := by
    rw [h2]
    simp [List.lookup]
  exact ⟨hlook1,
    (getitem_spec _).2.2.1 "  Alice " (Donor.mk "Alice" [100]) hlook1,
    hlook2,
    (getitem_spec _).2.2.2 "Bob" hlook2⟩

/-- C1: with a positive factor, `challenge` yields a collection in which
each donor's donation list is the original list first filtered to the
amounts `v` with `min_donation ≤ v ≤ max_donation` (inclusive bounds on the
pre-scale values; out-of-range amounts dropped, not clamped) and then each
surviving amount multiplied by the factor and rounded to 2 decimal places,
preserving order. -/
theorem challenge_filters_then_scales (c : DonorCollection) (f mn mx : ℚ)
    (hf : 0 < f) (hkeys : ∀ p ∈ c.donors, strip p.1 ≠ "") :
    ∃ out, (c.challenge f mn mx).2 = .ok out ∧
      out.donors = c.donors.map fun p =>
        (p.1, Donor.mk (strip p.1)
          ((p.2.donations.filter fun v => decide (mn ≤ v ∧ v ≤ mx)).map
            fun v => round2 (v * f))) := by
  rw [DonorCollection.challenge_pos c f mn mx hf hkeys]
  exact ⟨_, rfl, rfl⟩

/-- Witness for C1: doubling with window `[15, 1000]` drops the 10 and
scales the 20 and 30 to 40 and 60. -/
theorem challenge_filters_then_scales_witness :
    ((0 : ℚ) < 2) ∧
    (strip "A" ≠ "") ∧
    ∃ out, ((DonorCollection.mk [("A", Donor.mk "A" [10, 20, 30])] 1 0 (10 ^ 12)).challenge
        2 15 1000).2 = .ok out ∧
      out.donors = [("A", Donor.mk "A" [40, 60])] := by
  have hkeys : ∀ p ∈ [("A", Donor.mk "A" [10, 20, 30])], strip p.1 ≠ "" := by
    intro p hp
    rw [List.mem_singleton] at hp
    subst hp
    decide
  refine ⟨by norm_num, by decide, ?_⟩
  obtain ⟨out, hout, hdon⟩ := challenge_filters_then_scales
    (DonorCollection.mk [("A", Donor.mk "A" [10, 20, 30])] 1 0 (10 ^ 12)) 2 15 1000
    (by norm_num) hkeys
  refine ⟨out, hout, ?_⟩
  rw [hdon]
  have hfil : ([10, 20, 30] : List ℚ).filter
      (fun v => decide ((15 : ℚ) ≤ v ∧ v ≤ 1000)) = [20, 30] := by
    norm_num [List.filter]
  have h40 : round2 (40 : ℚ) = 40 := by
    have := round2_intCast 40
    exact_mod_cast this
  have h60 : round2 (60 : ℚ) = 60 := by
    have := round2_intCast 60
    exact_mod_cast this
  simp only [List.map_cons, List.map_nil, hfil]
  norm_num [h40, h60]
  decide

/-- C3: a `challenge` call leaves the original collection's `donors`
mapping — its key set and every donor's name and donation list — exactly as
it was, and on success the returned collection's donors are freshly
computed values (each donor built anew with a newly computed donation
list). -/
theorem challenge_preserves_original_donors (c : DonorCollection) (f mn mx : ℚ) :
    (c.challenge f mn mx).1.donors = c.donors ∧
    ((∀ p ∈ c.donors, strip p.1 ≠ "") → 0 < f →
      ∀ out, (c.challenge f mn mx).2 = .ok out →
        out.donors = c.donors.map fun p =>
          (p.1, Donor.mk (strip p.1)
            ((p.2.donations.filter fun v => decide (mn ≤ v ∧ v ≤ mx)).map
              fun v => round2 (v * f)))) := by
  refine ⟨challenge_fst_donors c f mn mx, ?_⟩
  intro hkeys hf out h
  rw [DonorCollection.challenge_pos c f mn mx hf hkeys] at h
  have h2 := Except.ok.inj h
  rw [← h2]

/-- Witness for C3: a concrete doubling leaves the one-donor original
untouched and produces a fresh doubled donor list. -/
theorem challenge_preserves_original_donors_witness :
    (((DonorCollection.mk [("B", Donor.mk "B" [5])] 1 0 (10 ^ 12)).challenge
      2 0 (10 ^ 12)).1.donors = [("B", Donor.mk "B" [5])]) ∧
    ∃ out, ((DonorCollection.mk [("B", Donor.mk "B" [5])] 1 0 (10 ^ 12)).challenge
      2 0 (10 ^ 12)).2 = .ok out ∧ out.donors = [("B", Donor.mk "B" [10])] := by
  have hkeys : ∀ p ∈ [("B", Donor.mk "B" [5])], strip p.1 ≠ "" := by
    intro p hp
    rw [List.mem_singleton] at hp
    subst hp
    decide
  have hpos := DonorCollection.challenge_pos
    (DonorCollection.mk [("B", Donor.mk "B" [5])] 1 0 (10 ^ 12)) 2 0 (10 ^ 12)
    (by norm_num) hkeys
  constructor
  · exact (challenge_preserves_original_donors _ 2 0 (10 ^ 12)).1
  · refine ⟨_, by rw [hpos], ?_⟩
    have hd := (challenge_preserves_original_donors _ 2 0 (10 ^ 12)).2 hkeys
      (by norm_num) _ (by rw [hpos])
    rw [hd]
    have hfil : ([5] : List ℚ).filter
        (fun v => decide ((0 : ℚ) ≤ v ∧ v ≤ 10 ^ 12)) = [5] := by
      norm_num [List.filter]
    have h10 : round2 (10 : ℚ) = 10 := by
      have := round2_intCast 10
      exact_mod_cast this
    simp only [List.map_cons, List.map_nil, hfil]
    norm_num [h10]
    decide

/-- Eliminator for a successful `challenge`: the factor was positive, the
triples were built, and the result's donors are the filtered/multiplied
images. -/
theorem challenge_ok_elim (c : DonorCollection) (f mn mx : ℚ) (out : DonorCollection)
    (h : (c.challenge f mn mx).2 = .ok out) :
    0 < f ∧ ∃ t, donorTriples c.donors = .ok t ∧
      out.donors = (t.map (DonorCollection.filter_mapper
          { c with factor := f, floor := mn, ceiling := mx })).map
        (DonorCollection.multiply_mapper
          { c with factor := f, floor := mn, ceiling := mx }) := by
  by_cases hf : f ≤ 0
  · rw [DonorCollection.challenge_nonpos c f mn mx hf] at h
    exact absurd h (by simp)
  · push_neg at hf
    refine ⟨hf, ?_⟩
    unfold DonorCollection.challenge DonorCollection.projector at h
    simp only [if_neg (not_le.mpr hf)] at h
    rcases ht : donorTriples c.donors with e | t
    · rw [ht] at h
      simp at h
    · rw [ht] at h
      simp only at h
      refine ⟨t, rfl, ?_⟩
      have h2 := Except.ok.inj h
      rw [← h2]

/-- Counterexample to C2 as stated: the collection reached by
`add("A", 0.01)` followed by `challenge(0.1)` holds the donor `"A"` with
donation list `[0.00]` — an amount strictly below the claimed 0.01 floor
(`round(0.01 * 0.1, 2) = 0.0` in the source's `multiply_mapper`). -/
theorem challenge_small_factor_cent_floor_cex :
    (DonorCollection.init.add "A" (Amt.num (1 / 100)))
      = ({ DonorCollection.init with donors := [("A", Donor.mk "A" [1 / 100])] }, none) ∧
    (({ DonorCollection.init with donors := [("A", Donor.mk "A" [1 / 100])] } :
        DonorCollection).challenge (1 / 10) 0 (10 ^ 12)).2
      = .ok { DonorCollection.init with donors := [("A", Donor.mk "A" [0])] } ∧
    ¬ centFloorOk (Donor.mk "A" [0]) := by
  have hs : strip "A" = "A" := by decide
  refine ⟨?_, ?_, ?_⟩
  case refine_3 =>
    intro h
    have h0 := (h 0 (List.mem_singleton.mpr rfl)).1
    norm_num at h0
  · simp only [DonorCollection.add, if_neg (by decide : ¬("A" = "" ∨ strip "A" = ""))]
    rw [hs]
    simp only [DonorCollection.init, List.lookup_nil]
    rw [Donor.create_num "A" (1 / 100) (by decide) (by norm_num), hs, round2_one_cent]
    simp
  · rw [DonorCollection.challenge_pos _ (1 / 10) 0 (10 ^ 12) (by norm_num)
      (by intro p hp; rw [List.mem_singleton] at hp; subst hp; decide)]
    have hfil : ([1 / 100] : List ℚ).filter
        (fun v => decide ((0 : ℚ) ≤ v ∧ v ≤ 10 ^ 12)) = [1 / 100] := by
      norm_num [List.filter]
    simp only [List.map_cons, List.map_nil, hfil]
    have hval : round2 ((1 / 100 : ℚ) * (1 / 10)) = 0 := by
      have h2 : ((1 / 100 : ℚ) * (1 / 10)) = 1 / 1000 := by norm_num
      rw [h2, round2_milli]
    rw [hs, hval]

/-- C2, as amended: every donation amount reachable through the public
operations is nonnegative and is a fixed point of cent rounding (the 0.01
lower bound of the original claim fails for `challenge` with a small
factor); `Donor.__init__`, `Donor.add`, `DonorCollection.add` and
`DonorCollection.challenge` (both the mutated original and the returned
collection) all preserve this invariant. -/
theorem donation_invariant_nonneg_cent :
    (∀ (n : String) (a : Amt) (d : Donor), Donor.create n a = .ok d → centOk d) ∧
    (∀ (d : Donor) (a : Amt), centOk d → centOk (d.add a).1) ∧
    (∀ (c : DonorCollection) (n : String) (a : Amt), collOk c →
      collOk (c.add n a).1) ∧
    (∀ (c : DonorCollection) (f mn mx : ℚ), collOk c →
      collOk (c.challenge f mn mx).1 ∧
      ∀ out, (c.challenge f mn mx).2 = .ok out → collOk out) := by
  have hcreate : ∀ (n : String) (a : Amt) (d : Donor),
      Donor.create n a = .ok d → centOk d := by
    intro n a d h
    simp only [Donor.create] at h
    split_ifs at h
    rcases h3 : addAmt [] a with ⟨ds, e⟩
    rw [h3] at h
    cases e with
    | none =>
      have h4 := Except.ok.inj h
      intro q hq
      rw [← h4] at hq
      exact addAmt_centOk [] a (by simp) q (by rw [h3]; exact hq)
    | some e1 => simp at h
  have hdonoradd : ∀ (d : Donor) (a : Amt), centOk d → centOk (d.add a).1 := by
    intro d a hc q hq
    exact addAmt_centOk d.donations a hc q hq
  refine ⟨hcreate, hdonoradd, ?_, ?_⟩
  · intro c n a hc
    by_cases h1 : n = "" ∨ strip n = ""
    · simp only [DonorCollection.add, if_pos h1]
      exact hc
    · simp only [DonorCollection.add, if_neg h1]
      rcases h2 : c.donors.lookup (strip n) with _ | d
      · rcases h3 : Donor.create (strip n) a with e | dnew
        · simp only [h3]
          exact hc
        · simp only [h3]
          intro p hp
          rcases List.mem_append.mp hp with hp1 | hp2
          · exact hc p hp1
          · rw [List.mem_singleton] at hp2
            subst hp2
            exact hcreate (strip n) a dnew h3
      · simp only []
        intro p hp
        obtain ⟨p0, hp0, rfl⟩ := List.mem_map.mp hp
        by_cases hps : p0.1 = strip n
        · rw [if_pos hps]
          have hd : centOk d := by
            obtain ⟨k2, hk2⟩ := lookup_mem h2
            exact hc (k2, d) hk2
          exact hdonoradd d a hd
        · rw [if_neg hps]
          exact hc p0 hp0
  · intro c f mn mx hc
    constructor
    · intro p hp
      rw [challenge_fst_donors] at hp
      exact hc p hp
    · intro out h
      obtain ⟨hf, t, ht, hdon⟩ := challenge_ok_elim c f mn mx out h
      intro p hp
      rw [hdon, List.map_map] at hp
      obtain ⟨x, hx, rfl⟩ := List.mem_map.mp hp
      intro q hq
      simp only [Function.comp, DonorCollection.multiply_mapper,
        DonorCollection.filter_mapper] at hq
      obtain ⟨y, hy, rfl⟩ := List.mem_map.mp hq
      have hyfil := List.mem_filter.mp hy
      obtain ⟨p0, hp0, he⟩ := donorTriples_sound c.donors t ht x hx
      have hy0 : 0 ≤ y := (hc p0 hp0 y (by rw [← he]; exact hyfil.1)).1
      refine ⟨round2_nonneg _ (mul_nonneg hy0 (le_of_lt hf)), round2_round2 _⟩

/-- Witness for the amended C2 at a concrete donor and amount. -/
theorem donation_invariant_nonneg_cent_witness :
    centOk (Donor.mk "A" [1]) ∧ centOk ((Donor.mk "A" [1]).add (Amt.num 2)).1 := by
  have h1 : round2 (1 : ℚ) = 1 := by
    have := round2_intCast 1
    exact_mod_cast this
  have hc : centOk (Donor.mk "A" [1]) := by
    intro q hq
    rw [List.mem_singleton] at hq
    subst hq
    exact ⟨by norm_num, h1⟩
  exact ⟨hc, donation_invariant_nonneg_cent.2.1 (Donor.mk "A" [1]) (Amt.num 2) hc⟩

/-- C4: creating donor "Alice" with 100.00 and then adding the Python float
`50.005` — whose exact IEEE-754 double value is
`7037578105208177 / 140737488355328`, slightly above the decimal 50.005 —
yields the donation list `[100.00, 50.01]` and a total of exactly
`150.01`. -/
theorem alice_100_then_50005 :
    Donor.create "Alice" (.num 100) = .ok (Donor.mk "Alice" [100]) ∧
    (Donor.mk "Alice" [100]).add (.num (7037578105208177 / 140737488355328))
      = (Donor.mk "Alice" [100, 5001 / 100], none) ∧
    (Donor.mk "Alice" [100, 5001 / 100]).total = 15001 / 100 := by
  have hs : strip "Alice" = "Alice" := by decide
  refine ⟨?_, ?_, ?_⟩
  · rw [Donor.create_num "Alice" 100 (by decide) (by norm_num), hs]
    have h100 : round2 (100 : ℚ) = 100 := by
      have := round2_intCast 100
      exact_mod_cast this
    rw [h100]
  · simp only [Donor.add, addAmt,
      if_neg (by norm_num : ¬ (7037578105208177 / 140737488355328 : ℚ) < 5 / 1000),
      round2_double_50005]
    rfl
  · rw [Donor.total, if_pos (by simp)]
    norm_num

end Mailroom
